import Mathlib

/-!
Verification of the note/category state-management model of the
personal-notes-organizer frontend (src/notes_frontend/src/App.js).

The JavaScript source is shallowly embedded: notes are records with
Nat timestamps and a Nat id (the source uses a freshly generated unique
string id; a counter models freshness), timestamps are supplied
explicitly as `now` arguments (the source calls Date.now()), and the
React state handlers become pure functions from `AppState` to
`AppState`.  JS string truthiness (empty string is falsy) is modelled
by comparison with `""`.
-/

namespace NotesApp

/-- A note record, mirroring the object built by `createNote` in App.js. -/
structure Note where
  id : Nat
  title : String
  content : String
  category : String
  createdAt : Nat
  updatedAt : Nat
  archived : Bool
deriving DecidableEq

/-- The default category registry (`DEFAULT_CATEGORIES` in App.js). -/
def DEFAULT_CATEGORIES : List String :=
  ["All Notes", "Personal", "Work", "Ideas", "Archive"]

/-- The two protected pseudo-category names hard-coded in
`renameCategory` and `deleteCategory` (the literal list of "All Notes" and "Archive"). -/
def protectedCategories : List String := ["All Notes", "Archive"]

/-- Embedding of `createNote` (App.js lines 40-50): builds a note with
`createdAt = updatedAt = now` and `archived = (category == "Archive")`. -/
def createNote (title content category : String) (id now : Nat) : Note :=
  { id := id
    title := title
    content := content
    category := category
    createdAt := now
    updatedAt := now
    archived := category == "Archive" }

/-- The application state held by the `App` component: the note
collection, the category registry, the active category, and the
selected note id.  `nextId` models fresh id generation. -/
structure AppState where
  notes : List Note
  categories : List String
  activeCategory : String
  selectedNoteId : Option Nat
  nextId : Nat
deriving DecidableEq

/-- The initial state: empty note collection, default registry,
`activeCategory = "All Notes"`, no selection. -/
def initState : AppState :=
  { notes := []
    categories := DEFAULT_CATEGORIES
    activeCategory := "All Notes"
    selectedNoteId := none
    nextId := 0 }

/-- Executable model of JavaScript `String.prototype.trim`: drop
leading and trailing whitespace characters (structural recursion over
the character list, so concrete inputs evaluate by kernel reduction). -/
def strTrim (s : String) : String :=
  ⟨((s.data.dropWhile Char.isWhitespace).reverse.dropWhile Char.isWhitespace).reverse⟩

/-- Embedding of `handleCreateNote(categoryHint)` (App.js lines 122-135):
the category is the hint unless it is falsy (empty) or `"All Notes"`,
in which case `"Personal"`; the note is created with the literal title
`"Untitled note"`, prepended to the collection and selected; an unknown
category other than `"Archive"` is appended to the registry. -/
def handleCreateNote (s : AppState) (categoryHint : String) (now : Nat) : AppState :=
  let category :=
    if categoryHint = "" ∨ categoryHint = "All Notes" then ("Personal") else categoryHint
  let note := createNote ("Untitled note") ("") category s.nextId now
  { s with
    notes := note :: s.notes
    selectedNoteId := some note.id
    nextId := s.nextId + 1
    categories :=
      if category ∉ s.categories ∧ category ≠ "Archive" then
        s.categories ++ [category]
      else s.categories }

/-- A partial field update passed to `handleUpdateNote`: the editor
updates title and/or content and/or category (spec section 4.2). -/
structure NotePatch where
  title : Option String
  content : Option String
  category : Option String
deriving DecidableEq

/-- Application of a field patch as in `{ ...n, ...fields, updatedAt: Date.now() }`. -/
def applyPatch (fields : NotePatch) (n : Note) (now : Nat) : Note :=
  { n with
    title := fields.title.getD n.title
    content := fields.content.getD n.content
    category := fields.category.getD n.category
    updatedAt := now }

/-- Embedding of `handleUpdateNote(id, fields)` (App.js lines 138-144). -/
def handleUpdateNote (s : AppState) (id : Nat) (fields : NotePatch) (now : Nat) : AppState :=
  { s with
    notes := s.notes.map (fun n => if n.id = id then applyPatch fields n now else n) }

/-- Embedding of `handleDeleteNote(id)` (App.js lines 147-150). -/
def handleDeleteNote (s : AppState) (id : Nat) : AppState :=
  { s with
    notes := s.notes.filter (fun n => n.id != id)
    selectedNoteId := if s.selectedNoteId = some id then none else s.selectedNoteId }

/-- The per-note effect of `handleArchiveToggle` (App.js lines 153-166):
`archived` is flipped; the category becomes `"Archive"` when archiving,
and `n.category or-else "Personal"` (JS truthiness: `"Personal"` only when the
stored category is the empty string) when unarchiving. -/
def toggleNote (n : Note) (now : Nat) : Note :=
  { n with
    archived := !n.archived
    category :=
      if !n.archived then ("Archive")
      else if n.category = "" then ("Personal") else n.category
    updatedAt := now }

/-- Embedding of `handleArchiveToggle(id)` (App.js lines 153-166). -/
def handleArchiveToggle (s : AppState) (id : Nat) (now : Nat) : AppState :=
  { s with notes := s.notes.map (fun n => if n.id = id then toggleNote n now else n) }

/-- Embedding of `addCategory(name)` (App.js lines 170-176). -/
def addCategory (s : AppState) (name : String) : AppState :=
  if strTrim name = "" then s
  else if strTrim name ∈ s.categories then s
  else { s with categories := s.categories ++ [strTrim name] }

/-- Embedding of `renameCategory(oldName, newName)` (App.js lines 179-189):
rejected when the trimmed new name is empty, the old name is protected,
or the trimmed new name already exists; otherwise the registry entry is
replaced in place, notes carrying the old name are reassigned (without a
timestamp bump), and the active view follows the rename. -/
def renameCategory (s : AppState) (oldName newName : String) : AppState :=
  if strTrim newName = "" ∨ oldName ∈ protectedCategories then s
  else if strTrim newName ∈ s.categories then s
  else
    { s with
      categories := s.categories.map (fun c => if c = oldName then strTrim newName else c)
      notes := s.notes.map
        (fun n => if n.category = oldName then { n with category := strTrim newName } else n)
      activeCategory :=
        if s.activeCategory = oldName then strTrim newName else s.activeCategory }

/-- Embedding of `deleteCategory(name)` (App.js lines 192-200). -/
def deleteCategory (s : AppState) (name : String) : AppState :=
  if name ∈ protectedCategories then s
  else
    { s with
      categories := s.categories.filter (fun c => c != name)
      notes := s.notes.map
        (fun n => if n.category = name then { n with category := ("Personal") } else n)
      activeCategory :=
        if s.activeCategory = name then ("All Notes") else s.activeCategory }

/-- Case-insensitive substring test used by the search filter:
`s.toLowerCase().includes(q)` where `q` is already lower-cased. -/
def strContainsLower (s q : String) : Bool :=
  if q = "" then true else decide (2 ≤ (s.toLower.splitOn q).length)

/-- The category branch of the `filteredNotes` memo (App.js lines 95-103). -/
def matchesView (activeCategory : String) (n : Note) : Bool :=
  if activeCategory ≠ "" ∧ activeCategory ≠ "All Notes" then
    if activeCategory = "Archive" then n.archived
    else n.category == activeCategory && !n.archived
  else !n.archived

/-- The search branch of the `filteredNotes` memo (App.js lines 104-111):
applied only when the trimmed query is non-empty; the untrimmed query is
lower-cased and matched against title and content. -/
def matchesSearch (searchQuery : String) (n : Note) : Bool :=
  if strTrim searchQuery = "" then true
  else
    strContainsLower n.title searchQuery.toLower ||
      strContainsLower n.content searchQuery.toLower

/-- The descending-`updatedAt` ordering induced by the comparator
`sortNotesByUpdatedAtDesc` (App.js lines 52-54): `a` sorts no later
than `b` iff `b.updatedAt ≤ a.updatedAt`. -/
def noteGE (a b : Note) : Prop := b.updatedAt ≤ a.updatedAt

instance : DecidableRel noteGE := fun a b => Nat.decLe b.updatedAt a.updatedAt

instance : IsTotal Note noteGE := ⟨fun a b => Nat.le_total b.updatedAt a.updatedAt⟩

instance : IsTrans Note noteGE := ⟨fun _ _ _ h1 h2 => Nat.le_trans h2 h1⟩

/-- The note list after the category and search filters, before sorting. -/
def baseFiltered (notes : List Note) (activeCategory searchQuery : String) : List Note :=
  (notes.filter (matchesView activeCategory)).filter (matchesSearch searchQuery)

/-- Embedding of the `filteredNotes` memo (App.js lines 93-113): filter
by active category, then by search query, then stable-sort descending by
`updatedAt` (JS `Array.prototype.sort` is stable; insertion sort with
`noteGE` realises the same stable ordering). -/
def filteredNotes (notes : List Note) (activeCategory searchQuery : String) : List Note :=
  List.insertionSort noteGE (baseFiltered notes activeCategory searchQuery)

/-- The exposed mutating operations of the app, for whole-history
invariants. -/
inductive Op where
  | create (hint : String)
  | update (id : Nat) (fields : NotePatch)
  | remove (id : Nat)
  | toggleArchive (id : Nat)
  | catAdd (name : String)
  | catRename (oldName newName : String)
  | catDelete (name : String)
deriving DecidableEq

/-- One step of the app: apply an operation at time `now`. -/
def applyOp (s : AppState) (op : Op) (now : Nat) : AppState :=
  match op with
  | .create hint => handleCreateNote s hint now
  | .update id fields => handleUpdateNote s id fields now
  | .remove id => handleDeleteNote s id
  | .toggleArchive id => handleArchiveToggle s id now
  | .catAdd name => addCategory s name
  | .catRename oldName newName => renameCategory s oldName newName
  | .catDelete name => deleteCategory s name

/-- Run a timed sequence of operations from a state. -/
def runOps (s : AppState) : List (Op × Nat) → AppState
  | [] => s
  | (op, t) :: rest => runOps (applyOp s op t) rest

/-- Per-state, per-time strengthening of the timestamp invariant: every
note was created no later than it was last updated, and no timestamp is
in the future of the clock. -/
def TimeInv (s : AppState) (t : Nat) : Prop :=
  ∀ n ∈ s.notes, n.createdAt ≤ n.updatedAt ∧ n.updatedAt ≤ t

/-- A concrete non-archived note with category "Work", used as a test
input. -/
def sampleWorkNote : Note :=
  { id := 0
    title := "T"
    content := ""
    category := "Work"
    createdAt := 0
    updatedAt := 0
    archived := false }

/-- A concrete state holding only `sampleWorkNote`. -/
def sampleWorkState : AppState :=
  { notes := [sampleWorkNote]
    categories := DEFAULT_CATEGORIES
    activeCategory := "All Notes"
    selectedNoteId := none
    nextId := 1 }

/-- A concrete non-archived note with category "Personal", used as a
test input for the view projector. -/
def sampleActiveNote : Note :=
  { id := 3
    title := "A"
    content := "B"
    category := "Personal"
    createdAt := 0
    updatedAt := 5
    archived := false }

/-- C1: evaluation of the code at the failing input.  Toggling archive
twice on a note whose category is `"Work"` leaves `archived = false` but
`category = "Archive"`: archiving overwrites the stored category with
`"Archive"`, and on unarchive `n.category or-else "Personal"` sees the
non-empty string `"Archive"`, so the original category `"Work"` is never
restored, contradicting the restore property stated by the spec. -/
theorem archive_double_toggle_keeps_archive_category :
    ((handleArchiveToggle (handleArchiveToggle sampleWorkState 0 1) 0 2).notes.map
        (fun n => (n.category, n.archived))) = [(("Archive"), false)] := by
  rfl

/-- C9 counterexample: the note created by `handleCreateNote` has the
non-empty stored title `"Untitled note"`, refuting the claim that every
created note has an empty `title`. -/
theorem create_stores_nonempty_title :
    ∃ n ∈ (handleCreateNote initState ("") 0).notes, n.title ≠ "" := by
  refine ⟨createNote ("Untitled note") ("") ("Personal") 0 0, ?_, ?_⟩
  · exact List.mem_cons_self _ _
  · decide

/-- C9 (amended): every note produced by the public create-note action
has the stored title `"Untitled note"`; it is prepended to the
collection. -/
theorem create_title_is_placeholder (s : AppState) (hint : String) (now : Nat) :
    ∃ n, (handleCreateNote s hint now).notes = n :: s.notes ∧ n.title = "Untitled note" :=
  ⟨_, rfl, rfl⟩

/-- C6: a created note has `createdAt = updatedAt`; an empty (unset) or
`"All Notes"` category hint yields category `"Personal"` and
`archived = false`; the hint `"Archive"` yields `archived = true`. -/
theorem create_note_defaults (s : AppState) (hint : String) (now : Nat) :
    ∃ n, (handleCreateNote s hint now).notes = n :: s.notes ∧
      n.createdAt = n.updatedAt ∧
      ((hint = "" ∨ hint = "All Notes") → n.category = "Personal" ∧ n.archived = false) ∧
      (hint = "Archive" → n.archived = true) := by
  refine ⟨_, rfl, rfl, ?_, ?_⟩
  · intro h
    constructor
    · show (if hint = "" ∨ hint = "All Notes" then ("Personal") else hint) = "Personal"
      rw [if_pos h]
    · show ((if hint = "" ∨ hint = "All Notes" then ("Personal") else hint) == "Archive") = false
      rw [if_pos h]
      rfl
  · intro h
    subst h
    rfl

/-- C4: renaming any category to a name whose trimmed form already
exists in the registry is rejected: the whole state (category list,
notes, active view, selection) is returned unchanged. -/
theorem rename_duplicate_rejected (s : AppState) (oldName newName : String)
    (h : strTrim newName ∈ s.categories) :
    renameCategory s oldName newName = s := by
  unfold renameCategory
  by_cases hc : strTrim newName = "" ∨ oldName ∈ protectedCategories
  · rw [if_pos hc]
  · rw [if_neg hc, if_pos h]

/-- C4 witness: renaming "Work" to the existing name "Personal" in the
initial state leaves the state unchanged. -/
theorem rename_duplicate_rejected_witness :
    strTrim ("Personal") ∈ initState.categories ∧
      renameCategory initState ("Work") ("Personal") = initState :=
  ⟨by decide, rename_duplicate_rejected initState ("Work") ("Personal") (by decide)⟩

/-- C5: a successful rename (trimmed new name non-empty, old name not
protected, trimmed new name not already registered) maps exactly the
notes whose `category` equals the old name to the same note with
`category` set to the trimmed new name, leaving every other note — and
in particular every `updatedAt` timestamp — unchanged. -/
theorem rename_cascade_exact (s : AppState) (oldName newName : String)
    (h1 : strTrim newName ≠ "") (h2 : oldName ∉ protectedCategories)
    (h3 : strTrim newName ∉ s.categories) :
    (renameCategory s oldName newName).notes =
      s.notes.map (fun n =>
        if n.category = oldName then { n with category := strTrim newName } else n) ∧
    (renameCategory s oldName newName).notes.map Note.updatedAt =
      s.notes.map Note.updatedAt := by
  have hcond : ¬ (strTrim newName = "" ∨ oldName ∈ protectedCategories) := by
    rintro (h | h)
    · exact h1 h
    · exact h2 h
  have hnotes : (renameCategory s oldName newName).notes =
      s.notes.map (fun n =>
        if n.category = oldName then { n with category := strTrim newName } else n) := by
    unfold renameCategory
    rw [if_neg hcond, if_neg h3]
  refine ⟨hnotes, ?_⟩
  rw [hnotes, List.map_map]
  refine List.map_congr_left ?_
  intro n _
  by_cases hc : n.category = oldName
  · simp only [Function.comp, if_pos hc]
  · simp only [Function.comp, if_neg hc]

/-- C5 witness: renaming "Work" to "Projects" on a one-note state
reassigns the note and keeps its `updatedAt`. -/
theorem rename_cascade_exact_witness :
    strTrim ("Projects") ≠ "" ∧ ("Work" : String) ∉ protectedCategories ∧
      strTrim ("Projects") ∉ sampleWorkState.categories ∧
      ((renameCategory sampleWorkState ("Work") ("Projects")).notes =
        sampleWorkState.notes.map (fun n =>
          if n.category = "Work" then { n with category := strTrim ("Projects") }
          else n) ∧
      (renameCategory sampleWorkState ("Work") ("Projects")).notes.map Note.updatedAt =
        sampleWorkState.notes.map Note.updatedAt) :=
  ⟨by decide, by decide, by decide,
    rename_cascade_exact sampleWorkState ("Work") ("Projects")
      (by decide) (by decide) (by decide)⟩

/-- C10: renaming an `oldName` that is absent from the registry (and not
protected) to a non-empty trimmed `newName` not already registered
leaves the category list unchanged, still reassigns every note whose
`category` equals `oldName` (a dangling reference) to the trimmed new
name, and switches the active view to the trimmed new name when it
equalled `oldName`. -/
theorem rename_dangling_reference (s : AppState) (oldName newName : String)
    (h0 : oldName ∉ s.categories) (h2 : oldName ∉ protectedCategories)
    (h1 : strTrim newName ≠ "") (h3 : strTrim newName ∉ s.categories) :
    (renameCategory s oldName newName).categories = s.categories ∧
    (renameCategory s oldName newName).notes =
      s.notes.map (fun n =>
        if n.category = oldName then { n with category := strTrim newName } else n) ∧
    (renameCategory s oldName newName).activeCategory =
      (if s.activeCategory = oldName then strTrim newName else s.activeCategory) := by
  have hcond : ¬ (strTrim newName = "" ∨ oldName ∈ protectedCategories) := by
    rintro (h | h)
    · exact h1 h
    · exact h2 h
  refine ⟨?_, ?_, ?_⟩
  · unfold renameCategory
    rw [if_neg hcond, if_neg h3]
    show s.categories.map (fun c => if c = oldName then strTrim newName else c) = s.categories
    have : ∀ c ∈ s.categories, (if c = oldName then strTrim newName else c) = c := by
      intro c hc
      have : c ≠ oldName := fun he => h0 (he ▸ hc)
      rw [if_neg this]
    rw [List.map_congr_left this]
    simp
  · unfold renameCategory
    rw [if_neg hcond, if_neg h3]
  · unfold renameCategory
    rw [if_neg hcond, if_neg h3]

/-- C10 witness: renaming the dangling name "Ghost" to "Team" on a state
whose only note carries "Ghost" and whose active view is "Ghost". -/
theorem rename_dangling_reference_witness :
    ("Ghost" : String) ∉ initState.categories ∧
      ("Ghost" : String) ∉ protectedCategories ∧
      strTrim ("Team") ≠ "" ∧ strTrim ("Team") ∉ initState.categories ∧
      ((renameCategory initState ("Ghost") ("Team")).categories = initState.categories ∧
      (renameCategory initState ("Ghost") ("Team")).notes =
        initState.notes.map (fun n =>
          if n.category = "Ghost" then { n with category := strTrim ("Team") }
          else n) ∧
      (renameCategory initState ("Ghost") ("Team")).activeCategory =
        (if initState.activeCategory = "Ghost" then strTrim ("Team")
         else initState.activeCategory)) :=
  ⟨by decide, by decide, by decide, by decide,
    rename_dangling_reference initState ("Ghost") ("Team")
      (by decide) (by decide) (by decide) (by decide)⟩

theorem matchesView_archived (ac : String) (n : Note) (h : matchesView ac n = true) :
    (ac ≠ "Archive" → n.archived = false) ∧ (ac = "Archive" → n.archived = true) := by
  unfold matchesView at h
  constructor
  · intro hne
    by_cases hcond : ac ≠ "" ∧ ac ≠ "All Notes"
    · rw [if_pos hcond, if_neg hne] at h
      simp only [Bool.and_eq_true] at h
      simpa using h.2
    · rw [if_neg hcond] at h
      simpa using h
  · intro heq
    subst heq
    rw [if_pos (by decide), if_pos rfl] at h
    exact h

/-- C2: the View Projector never returns an archived note when the
active category is anything other than `Archive`, and never returns a
non-archived note under `Archive`. -/
theorem view_never_mixes_archived (notes : List Note) (ac q : String) (n : Note)
    (h : n ∈ filteredNotes notes ac q) :
    (ac ≠ "Archive" → n.archived = false) ∧ (ac = "Archive" → n.archived = true) := by
  have hbase : n ∈ baseFiltered notes ac q :=
    (List.perm_insertionSort noteGE (baseFiltered notes ac q)).subset h
  exact matchesView_archived ac n (List.mem_filter.mp (List.mem_filter.mp hbase).1).2

/-- C2 witness: the non-archived `sampleActiveNote` is in the projection
of the singleton collection under `All Notes`, and the theorem applies
to it. -/
theorem view_never_mixes_archived_witness :
    (("All Notes" : String) ≠ "Archive" → sampleActiveNote.archived = false) ∧
      (("All Notes" : String) = "Archive" → sampleActiveNote.archived = true) :=
  view_never_mixes_archived [sampleActiveNote] ("All Notes") ("") sampleActiveNote
    (by decide)

theorem protected_mem_applyOp (s : AppState) (op : Op) (t : Nat) (c : String)
    (hc : c ∈ protectedCategories) (h : c ∈ s.categories) :
    c ∈ (applyOp s op t).categories := by
  cases op with
  | create hint =>
      show c ∈ (handleCreateNote s hint t).categories
      dsimp only [handleCreateNote]
      split <;> split <;> first
        | exact List.mem_append_left _ h
        | exact h
  | update id fields => exact h
  | remove id => exact h
  | toggleArchive id => exact h
  | catAdd name =>
      show c ∈ (addCategory s name).categories
      unfold addCategory
      split
      · exact h
      · split
        · exact h
        · exact List.mem_append_left _ h
  | catRename oldName newName =>
      show c ∈ (renameCategory s oldName newName).categories
      unfold renameCategory
      split
      · exact h
      · split
        · exact h
        · rename_i hcond _
          have hne : c ≠ oldName := by
            intro he
            exact hcond (Or.inr (he ▸ hc))
          exact List.mem_map.mpr ⟨c, h, if_neg hne⟩
  | catDelete name =>
      show c ∈ (deleteCategory s name).categories
      unfold deleteCategory
      split
      · exact h
      · rename_i hname
        refine List.mem_filter.mpr ⟨h, ?_⟩
        have hne : c ≠ name := by
          intro he
          exact hname (he ▸ hc)
        simpa using hne

/-- C7: after any sequence of exposed operations (in particular any
sequence of category add, rename and delete operations) starting from
the initial state with the default registry, both protected names
`"All Notes"` and `"Archive"` are still present in the registry. -/
theorem protected_categories_persist (ops : List (Op × Nat)) :
    "All Notes" ∈ (runOps initState ops).categories ∧
      "Archive" ∈ (runOps initState ops).categories := by
  have key : ∀ (l : List (Op × Nat)) (s : AppState),
      "All Notes" ∈ s.categories → "Archive" ∈ s.categories →
      "All Notes" ∈ (runOps s l).categories ∧ "Archive" ∈ (runOps s l).categories := by
    intro l
    induction l with
    | nil => exact fun s h1 h2 => ⟨h1, h2⟩
    | cons p rest ih =>
        obtain ⟨op, t⟩ := p
        intro s h1 h2
        exact ih (applyOp s op t)
          (protected_mem_applyOp s op t _ (by decide) h1)
          (protected_mem_applyOp s op t _ (by decide) h2)
  exact key ops initState (by decide) (by decide)

theorem timeInv_applyOp (s : AppState) (op : Op) (t now : Nat)
    (hs : TimeInv s t) (ht : t ≤ now) : TimeInv (applyOp s op now) now := by
  cases op with
  | create hint =>
      intro n hn
      have hn' : n = createNote ("Untitled note") ("")
          (if hint = "" ∨ hint = "All Notes" then ("Personal") else hint) s.nextId now ∨
          n ∈ s.notes := List.mem_cons.mp hn
      rcases hn' with rfl | hn'
      · exact ⟨Nat.le_refl _, Nat.le_refl _⟩
      · rcases hs n hn' with ⟨h1, h2⟩
        exact ⟨h1, Nat.le_trans h2 ht⟩
  | update id fields =>
      intro n hn
      rcases List.mem_map.mp hn with ⟨m, hm, rfl⟩
      rcases hs m hm with ⟨h1, h2⟩
      by_cases hid : m.id = id
      · rw [if_pos hid]
        exact ⟨Nat.le_trans h1 (Nat.le_trans h2 ht), Nat.le_refl _⟩
      · rw [if_neg hid]
        exact ⟨h1, Nat.le_trans h2 ht⟩
  | remove id =>
      intro n hn
      rcases hs n (List.mem_filter.mp hn).1 with ⟨h1, h2⟩
      exact ⟨h1, Nat.le_trans h2 ht⟩
  | toggleArchive id =>
      intro n hn
      rcases List.mem_map.mp hn with ⟨m, hm, rfl⟩
      rcases hs m hm with ⟨h1, h2⟩
      by_cases hid : m.id = id
      · rw [if_pos hid]
        exact ⟨Nat.le_trans h1 (Nat.le_trans h2 ht), Nat.le_refl _⟩
      · rw [if_neg hid]
        exact ⟨h1, Nat.le_trans h2 ht⟩
  | catAdd name =>
      intro n hn
      have hn' : n ∈ s.notes := by
        revert hn
        show n ∈ (addCategory s name).notes → n ∈ s.notes
        unfold addCategory
        split
        · exact id
        · split
          · exact id
          · exact id
      rcases hs n hn' with ⟨h1, h2⟩
      exact ⟨h1, Nat.le_trans h2 ht⟩
  | catRename oldName newName =>
      intro n hn
      have hn' : n.createdAt ≤ n.updatedAt ∧ n.updatedAt ≤ t := by
        revert hn
        show n ∈ (renameCategory s oldName newName).notes → _
        unfold renameCategory
        split
        · exact hs n
        · split
          · exact hs n
          · intro hn
            rcases List.mem_map.mp hn with ⟨m, hm, rfl⟩
            rcases hs m hm with ⟨h1, h2⟩
            by_cases hcat : m.category = oldName
            · rw [if_pos hcat]
              exact ⟨h1, h2⟩
            · rw [if_neg hcat]
              exact ⟨h1, h2⟩
      exact ⟨hn'.1, Nat.le_trans hn'.2 ht⟩
  | catDelete name =>
      intro n hn
      have hn' : n.createdAt ≤ n.updatedAt ∧ n.updatedAt ≤ t := by
        revert hn
        show n ∈ (deleteCategory s name).notes → _
        unfold deleteCategory
        split
        · exact hs n
        · intro hn
          rcases List.mem_map.mp hn with ⟨m, hm, rfl⟩
          rcases hs m hm with ⟨h1, h2⟩
          by_cases hcat : m.category = name
          · rw [if_pos hcat]
            exact ⟨h1, h2⟩
          · rw [if_neg hcat]
            exact ⟨h1, h2⟩
      exact ⟨hn'.1, Nat.le_trans hn'.2 ht⟩

theorem timeInv_runOps (l : List (Op × Nat)) :
    ∀ (s : AppState) (t : Nat), TimeInv s t →
      List.Chain (fun a b => a ≤ b) t (l.map Prod.snd) →
      ∀ n ∈ (runOps s l).notes, n.createdAt ≤ n.updatedAt := by
  induction l with
  | nil => exact fun s t hs _ n hn => (hs n hn).1
  | cons p rest ih =>
      obtain ⟨op, u⟩ := p
      intro s t hs hchain
      cases hchain with
      | cons htu hchain' =>
          exact ih (applyOp s op u) u (timeInv_applyOp s op t u hs htu) hchain'

/-- C3: after any timed sequence of the exposed operations starting
from the empty initial collection, with a non-decreasing clock, every
note in the collection satisfies `createdAt ≤ updatedAt`. -/
theorem all_notes_updatedAt_ge_createdAt (ops : List (Op × Nat))
    (h : List.Chain (fun a b => a ≤ b) 0 (ops.map Prod.snd)) :
    ∀ n ∈ (runOps initState ops).notes, n.createdAt ≤ n.updatedAt :=
  timeInv_runOps ops initState 0 (fun n hn => absurd hn (by simp [initState])) h

/-- C3 witness: a concrete monotone history — create a note at time 3,
edit its title at time 5, archive it at time 9 — satisfies the
invariant. -/
theorem all_notes_updatedAt_ge_createdAt_witness :
    List.Chain (fun a b => a ≤ b) 0
        (([(Op.create ("Work"), 3),
           (Op.update 0 ⟨some ("T2"), none, none⟩, 5),
           (Op.toggleArchive 0, 9)] : List (Op × Nat)).map Prod.snd) ∧
      ∀ n ∈ (runOps initState
          [(Op.create ("Work"), 3),
           (Op.update 0 ⟨some ("T2"), none, none⟩, 5),
           (Op.toggleArchive 0, 9)]).notes,
        n.createdAt ≤ n.updatedAt :=
  ⟨List.Chain.cons (by decide)
      (List.Chain.cons (by decide) (List.Chain.cons (by decide) List.Chain.nil)),
    all_notes_updatedAt_ge_createdAt _
      (List.Chain.cons (by decide)
        (List.Chain.cons (by decide) (List.Chain.cons (by decide) List.Chain.nil)))⟩

theorem filter_key_orderedInsert (a : Note) (k : Nat) :
    ∀ l : List Note,
      (List.orderedInsert noteGE a l).filter (fun n => n.updatedAt == k) =
        (a :: l).filter (fun n => n.updatedAt == k)
  | [] => rfl
  | b :: l => by
      rw [List.orderedInsert]
      by_cases hr : noteGE a b
      · rw [if_pos hr]
      · rw [if_neg hr]
        have hlt : a.updatedAt < b.updatedAt := Nat.lt_of_not_le hr
        have IH := filter_key_orderedInsert a k l
        by_cases hbk : b.updatedAt = k
        · have hak : ¬ a.updatedAt = k := by omega
          simp [List.filter_cons, hbk, hak, IH]
        · by_cases hak : a.updatedAt = k
          · simp [List.filter_cons, hbk, hak, IH]
          · simp [List.filter_cons, hbk, hak, IH]

theorem filter_key_insertionSort (k : Nat) :
    ∀ l : List Note,
      (List.insertionSort noteGE l).filter (fun n => n.updatedAt == k) =
        l.filter (fun n => n.updatedAt == k)
  | [] => rfl
  | a :: l => by
      rw [List.insertionSort, filter_key_orderedInsert a k]
      simp only [List.filter_cons, filter_key_insertionSort k l]

/-- C8: the output of the View Projector is sorted in descending order of
`updatedAt`; notes of equal `updatedAt` appear exactly in the order of
the pre-sort list `baseFiltered` (which preserves the storage order of
the collection, so ties are broken stably and deterministically); and
equal inputs yield equal output sequences. -/
theorem view_projector_sorted_stable (notes : List Note) (ac q : String) :
    List.Sorted (fun a b : Note => b.updatedAt ≤ a.updatedAt) (filteredNotes notes ac q) ∧
      (∀ k : Nat,
        (filteredNotes notes ac q).filter (fun n => n.updatedAt == k) =
          (baseFiltered notes ac q).filter (fun n => n.updatedAt == k)) ∧
      (∀ notes2 ac2 q2, notes = notes2 → ac = ac2 → q = q2 →
        filteredNotes notes ac q = filteredNotes notes2 ac2 q2) :=
  ⟨List.sorted_insertionSort noteGE (baseFiltered notes ac q),
    fun k => filter_key_insertionSort k (baseFiltered notes ac q),
    fun _ _ _ h1 h2 h3 => by rw [h1, h2, h3]⟩

end NotesApp
